import Mathlib

/-!
Shallow embedding of the tourist-system backend (src/backend/app.py): the
intent classifier and place extractor of `TourismAgent`, the provider-response
processing of `GeocodingAgent.geocode`, `WeatherAgent.get_weather` and
`PlacesAgent.get_places`, and the orchestration in
`TourismAgent.handle_request`.  Python strings are modelled as lists of
characters; the external HTTP responses are passed in explicitly through an
`Env` record, and the upstream calls the orchestrator makes are returned as a
log alongside the reply.
-/

namespace Tourist

/-- Characters of a Python `str`, modelled as a list of characters. -/
abbrev Str := List Char

/-- Turns a Lean string literal into the character-list model. -/
def lit (s : String) : Str := s.data

/-- Python `str.lower()` on the ASCII range (the program only matches ASCII
keywords). -/
def pyLower (s : Str) : Str := s.map Char.toLower

/-- Whitespace recognised by Python `str.strip()` and `str.split()`:
space, tab, newline, carriage return, vertical tab, form feed. -/
def isPySpace (c : Char) : Bool :=
  c = ' ' || c = Char.ofNat 9 || c = Char.ofNat 10 ||
  c = Char.ofNat 13 || c = Char.ofNat 11 || c = Char.ofNat 12

/-- Python `str.strip()`: remove leading and trailing whitespace. -/
def pyStrip (s : Str) : Str :=
  ((s.dropWhile isPySpace).reverse.dropWhile isPySpace).reverse

/-- Index of the first occurrence of `pat` in `s`
(Python `str.index`; `isSome` is Python's `pat in s`). -/
def firstIdx (pat : Str) : Str → Option Nat
  | [] => if List.isPrefixOf pat ([] : Str) then some 0 else none
  | c :: rest =>
    if List.isPrefixOf pat (c :: rest) then some 0
    else (firstIdx pat rest).map (· + 1)

/-- Python's substring test `pat in s`. -/
def containsSub (pat s : Str) : Bool := (firstIdx pat s).isSome

/-- Index of the last occurrence of `pat` in `s` (Python `str.rfind`,
`none` standing for rfind's -1). -/
def lastIdx (pat : Str) : Str → Option Nat
  | [] => if List.isPrefixOf pat ([] : Str) then some 0 else none
  | c :: rest =>
    match lastIdx pat rest with
    | some i => some (i + 1)
    | none => if List.isPrefixOf pat (c :: rest) then some 0 else none

/-- Whether `pat` occurs in `s` at position `i`. -/
def occursAt (pat s : Str) (i : Nat) : Bool := List.isPrefixOf pat (s.drop i)

/-- Helper for `splitWs`: accumulates the current word, reversed. -/
def splitWsAux : Str → Str → List Str
  | [], acc => if acc.isEmpty then [] else [acc.reverse]
  | c :: rest, acc =>
    if isPySpace c then
      if acc.isEmpty then splitWsAux rest [] else acc.reverse :: splitWsAux rest []
    else splitWsAux rest (c :: acc)

/-- Python `str.split()` with no argument: split on runs of whitespace,
dropping empty pieces. -/
def splitWs (s : Str) : List Str := splitWsAux s []

/-- Python `sep.join(pieces)`. -/
def joinSep (sep : Str) : List Str → Str
  | [] => []
  | w :: [] => w
  | w :: v :: ws => w ++ sep ++ joinSep sep (v :: ws)

/-- Decimal digits of a natural number, fuel-based
(Python's rendering of a nonnegative `int` in an f-string). -/
def natToStrAux (fuel n : Nat) (acc : Str) : Str :=
  match fuel with
  | 0 => acc
  | fuel + 1 =>
    let d := Char.ofNat (48 + n % 10)
    if n < 10 then d :: acc else natToStrAux fuel (n / 10) (d :: acc)

/-- Decimal rendering of a natural number. -/
def natToStr (n : Nat) : Str := natToStrAux (n + 1) n []

/-- A single space, the separator joining reply fragments. -/
def spc : Str := lit " "

/-- The newline character used between listed place names. -/
def nlc : Char := Char.ofNat 10

/-- Python's f-string rendering of an optional string (`None` renders
as the text "None"). -/
def showOptS : Option Str → Str
  | some s => s
  | none => lit "None"

/-- Python's f-string rendering of an optional integer. -/
def showOptN : Option Nat → Str
  | some n => natToStr n
  | none => lit "None"

/-! The place extractor `TourismAgent._extract_place` (app.py lines 157-190),
written as the sequence of stages the code performs. -/

/-- The pattern " to " anchored on by the extractor. -/
def toPat : Str := lit " to "

/-- Stage 1 (lines 158-165): strip the input; if the case-folded stripped
text contains " to ", keep the stripped substring after the last occurrence,
else the whole stripped text. -/
def anchorStage (user_input : Str) : Str :=
  let text := pyStrip user_input
  let lowr := pyLower text
  if containsSub toPat lowr then
    pyStrip (text.drop ((lastIdx toPat lowr).getD 0 + 4))
  else text

/-- The clause markers scanned for, in the code's order (line 167). -/
def seps : List Str :=
  [lit ",", lit "?", lit ".", lit " and ", lit " what "]

/-- The truncation loop of lines 167-171: the first marker found in the
case-folded candidate cuts it at that marker's first occurrence, and the
loop breaks. -/
def truncLoop : List Str → Str → Str
  | [], c => c
  | m :: rest, c =>
    match firstIdx m (pyLower c) with
    | some i => pyStrip (c.take i)
    | none => truncLoop rest c

/-- Stage 2 (lines 167-171): truncate at the first clause marker found. -/
def truncStage (c : Str) : Str := truncLoop seps c

/-- The stop-word set of lines 173-178. -/
def stop_words : List Str :=
  [lit "i", lit "im", lit "i'm", lit "going", lit "go", lit "to",
   lit "what", lit "is", lit "the", lit "there", lit "and", lit "visit",
   lit "places", lit "place", lit "temperature", lit "weather", lit "trip",
   lit "in", lit "city", lit "are", lit "can", lit "you", lit "my",
   lit "let's", lit "lets"]

/-- Stages 3 and 4 (lines 179-185): drop stop-word tokens; if nothing
survives, fall back to the last two tokens of the unstripped word list. -/
def stripStage (c : Str) : Str :=
  let words := splitWs c
  let filtered := words.filter (fun w => !(stop_words.contains (pyLower w)))
  if filtered.isEmpty then joinSep spc (words.drop (words.length - 2))
  else joinSep spc filtered

/-- Stage 5 (lines 187-188): if more than 3 tokens remain, keep the last 2. -/
def capStage (c : Str) : Str :=
  if (splitWs c).length > 3 then
    joinSep spc ((splitWs c).drop ((splitWs c).length - 2))
  else c

/-- `TourismAgent._extract_place` (app.py lines 157-190). -/
def extract_place (user_input : Str) : Str :=
  capStage (stripStage (truncStage (anchorStage user_input)))

/-! Intent detection (app.py lines 100-107). -/

/-- The weather keyword test of line 103 on already-lowered text. -/
def weatherKw (text : Str) : Bool :=
  containsSub (lit "temperature") text || containsSub (lit "weather") text

/-- The places keyword test of line 104 on already-lowered text. -/
def placesKw (text : Str) : Bool :=
  [lit "place", lit "places", lit "visit", lit "attraction",
   lit "sightseeing"].any (fun w => containsSub w text)

/-- `wants_weather` as computed on lines 100-103. -/
def wwOf (user_input : Str) : Bool := weatherKw (pyLower user_input)

/-- `wants_places` as computed on lines 104-107, with the
default-to-places fallback. -/
def wpOf (user_input : Str) : Bool :=
  if !wwOf user_input && !placesKw (pyLower user_input) then true
  else placesKw (pyLower user_input)

/-- The intent pair (wants_weather, wants_places). -/
def classify (user_input : Str) : Bool × Bool := (wwOf user_input, wpOf user_input)

/-! The upstream agents, parametrised by the provider responses they would
receive over HTTP. -/

/-- One entry of the Nominatim result list consumed by
`GeocodingAgent.geocode`: coordinates and an optional display name
(coordinates are opaque to the core, so they are carried as integers). -/
structure GeoEntry where
  lat : Int
  lon : Int
  display_name : Option Str
  deriving DecidableEq

/-- The weather-provider response consumed by `WeatherAgent.get_weather`:
an optional current temperature (carried in its rendered form, since the
core only interpolates it into text) and the hourly precipitation
probabilities. -/
structure WeatherResp where
  current_temp : Option Str
  precip : List Nat
  deriving DecidableEq

/-- The provider responses one request would see, one per agent (the
orchestrator calls each agent at most once per request). -/
structure Env where
  geoResults : List GeoEntry
  weatherResp : WeatherResp
  placesElems : List (Option Str)
  deriving DecidableEq

/-- An upstream call made by the orchestrator. -/
inductive UpCall
  | geo
  | weather
  | places
  deriving DecidableEq

/-- `GeocodingAgent.geocode` (app.py lines 72-89) applied to the provider's
result list: `none` models the `GeocodingError` raised when the list is
empty; otherwise the first entry's coordinates together with the first
comma-delimited segment of its display name (defaulting to the query). -/
def geocode (place : Str) (results : List GeoEntry) : Option (Int × Int × Str) :=
  match results with
  | [] => none
  | first :: _ =>
    let dn := first.display_name.getD place
    some (first.lat, first.lon, dn.takeWhile (fun c => c ≠ ','))

/-- Maximum of a list of naturals (Python `max`, applied to nonempty lists). -/
def listMax : List Nat → Nat
  | [] => 0
  | x :: xs => xs.foldl Nat.max x

/-- `WeatherAgent.get_weather` (app.py lines 14-31) applied to the provider
response: the optional temperature and, when the precipitation list is
nonempty, its maximum as the rain chance. -/
def get_weather (resp : WeatherResp) : Option Str × Option Nat :=
  (resp.current_temp,
    if resp.precip.isEmpty then none else some (listMax resp.precip))

/-- One iteration's update of `names` in `PlacesAgent.get_places` (app.py
lines 58-61): append the element's name when it is truthy and unseen. -/
def placesStep (names : List Str) : Option Str → List Str
  | some name =>
    if !name.isEmpty && !names.contains name then names ++ [name] else names
  | none => names

/-- The accumulation loop of `PlacesAgent.get_places` (app.py lines 57-63):
append each truthy, not-yet-seen name, and break as soon as the
accumulated list reaches `limit`. -/
def placesLoop (limit : Nat) : List (Option Str) → List Str → List Str
  | [], names => names
  | el :: rest, names =>
    let names2 := placesStep names el
    if names2.length ≥ limit then names2 else placesLoop limit rest names2

/-- `PlacesAgent.get_places` (app.py lines 38-63) applied to the optional
names of the provider's elements. -/
def get_places (elements : List (Option Str)) (limit : Nat) : List Str :=
  placesLoop limit elements []

/-- Reference function following the spec's words ("a deduplicated,
order-preserving list", dedup "by exact string match", keeping the order of
first occurrence): the names not yet seen, each kept at its first
occurrence, in encounter order.  `seen` is the set of names already kept. -/
def firstOccur : List Str → List Str → List Str
  | _, [] => []
  | seen, n :: rest =>
    if seen.contains n then firstOccur seen rest
    else n :: firstOccur (seen ++ [n]) rest

/-- First-occurrence deduplication of a name list, per the spec's words. -/
def dedupFirst (l : List Str) : List Str := firstOccur [] l

/-- `TourismAgent.handle_request` (app.py lines 99-155): the reply together
with the list of upstream calls made, given the provider responses `env`. -/
def handle_request (env : Env) (user_input : Str) : Str × List UpCall :=
  let wants_weather := wwOf user_input
  let wants_places := wpOf user_input
  let place := extract_place user_input
  if place.isEmpty then
    (lit "Please tell me which place you want to go.", [])
  else
    match geocode place env.geoResults with
    | none => (lit "I don't know this place exist.", [UpCall.geo])
    | some (_, _, display_name) =>
      if wants_weather && !wants_places then
        match get_weather env.weatherResp with
        | (some t, some r) =>
          (lit "In " ++ display_name ++ lit " it's currently " ++ t ++
            lit "°C with a chance of " ++ natToStr r ++ lit "% to rain.",
           [UpCall.geo, UpCall.weather])
        | (some t, none) =>
          (lit "In " ++ display_name ++ lit " it's currently " ++ t ++ lit "°C.",
           [UpCall.geo, UpCall.weather])
        | (none, _) =>
          (lit "Sorry, I couldn't get the weather for " ++ display_name ++ lit ".",
           [UpCall.geo, UpCall.weather])
      else
        let wparts : List Str :=
          if wants_weather then
            [lit "In " ++ display_name ++ lit " it's currently " ++
              showOptS (get_weather env.weatherResp).1 ++
              lit "°C with a chance of " ++
              showOptN (get_weather env.weatherResp).2 ++ lit "% to rain."]
          else []
        let wcalls : List UpCall := if wants_weather then [UpCall.weather] else []
        let pparts : List Str :=
          if wants_places then
            let places := get_places env.placesElems 5
            if places.isEmpty then
              [lit "Sorry, I couldn't find tourist places near " ++ display_name ++ lit "."]
            else
              [(if wants_weather then lit "And these are the places you can go:"
                else lit "In " ++ display_name ++ lit " these are the places you can go,") ++
               nlc :: joinSep [nlc] places]
          else []
        let pcalls : List UpCall := if wants_places then [UpCall.places] else []
        (joinSep spc (wparts ++ pparts), UpCall.geo :: (wcalls ++ pcalls))

/-! Specifications of the substring searches. -/

lemma occursAt_cons_succ (pat : Str) (c : Char) (s : Str) (j : Nat) :
    occursAt pat (c :: s) (j + 1) = occursAt pat s j := rfl

lemma occursAt_cons_zero (pat : Str) (c : Char) (s : Str) :
    occursAt pat (c :: s) 0 = List.isPrefixOf pat (c :: s) := rfl

lemma firstIdx_occurs {pat : Str} :
    ∀ {s : Str} {i : Nat}, firstIdx pat s = some i → occursAt pat s i = true := by
  intro s
  induction s with
  | nil =>
    intro i h
    by_cases hp : List.isPrefixOf pat ([] : Str) = true
    · rw [firstIdx, if_pos hp] at h
      cases h
      exact hp
    · rw [firstIdx, if_neg hp] at h
      cases h
  | cons c rest ih =>
    intro i h
    by_cases hp : List.isPrefixOf pat (c :: rest) = true
    · rw [firstIdx, if_pos hp] at h
      cases h
      exact hp
    · rw [firstIdx, if_neg hp] at h
      obtain ⟨i', hi', rfl⟩ := Option.map_eq_some'.mp h
      rw [occursAt_cons_succ]
      exact ih hi'

lemma firstIdx_min {pat : Str} :
    ∀ {s : Str} {i : Nat}, firstIdx pat s = some i →
      ∀ j, occursAt pat s j = true → i ≤ j := by
  intro s
  induction s with
  | nil =>
    intro i h j _
    by_cases hp : List.isPrefixOf pat ([] : Str) = true
    · rw [firstIdx, if_pos hp] at h
      cases h
      exact Nat.zero_le j
    · rw [firstIdx, if_neg hp] at h
      cases h
  | cons c rest ih =>
    intro i h j hj
    by_cases hp : List.isPrefixOf pat (c :: rest) = true
    · rw [firstIdx, if_pos hp] at h
      cases h
      exact Nat.zero_le j
    · rw [firstIdx, if_neg hp] at h
      obtain ⟨i', hi', rfl⟩ := Option.map_eq_some'.mp h
      match j with
      | 0 => exact absurd hj hp
      | j + 1 =>
        rw [occursAt_cons_succ] at hj
        exact Nat.succ_le_succ (ih hi' j hj)

lemma firstIdx_none {pat : Str} :
    ∀ {s : Str}, firstIdx pat s = none → ∀ j, occursAt pat s j = false := by
  intro s
  induction s with
  | nil =>
    intro h j
    by_cases hp : List.isPrefixOf pat ([] : Str) = true
    · rw [firstIdx, if_pos hp] at h
      cases h
    · rw [Bool.not_eq_true] at hp
      show List.isPrefixOf pat (List.drop j []) = false
      rw [List.drop_nil]
      exact hp
  | cons c rest ih =>
    intro h j
    by_cases hp : List.isPrefixOf pat (c :: rest) = true
    · rw [firstIdx, if_pos hp] at h
      cases h
    · rw [firstIdx, if_neg hp] at h
      have hrest : firstIdx pat rest = none := by
        cases hr : firstIdx pat rest
        · rfl
        · rw [hr] at h; cases h
      match j with
      | 0 =>
        rw [occursAt_cons_zero, Bool.not_eq_true] at *
        exact hp
      | j + 1 =>
        rw [occursAt_cons_succ]
        exact ih hrest j

lemma lastIdx_occurs {pat : Str} :
    ∀ {s : Str} {i : Nat}, lastIdx pat s = some i → occursAt pat s i = true := by
  intro s
  induction s with
  | nil =>
    intro i h
    by_cases hp : List.isPrefixOf pat ([] : Str) = true
    · rw [lastIdx, if_pos hp] at h
      cases h
      exact hp
    · rw [lastIdx, if_neg hp] at h
      cases h
  | cons c rest ih =>
    intro i h
    rw [lastIdx] at h
    cases hr : lastIdx pat rest with
    | some i' =>
      rw [hr] at h
      cases h
      rw [occursAt_cons_succ]
      exact ih hr
    | none =>
      rw [hr] at h
      by_cases hp : List.isPrefixOf pat (c :: rest) = true
      · rw [if_pos hp] at h
        cases h
        exact hp
      · rw [if_neg hp] at h
        cases h

lemma lastIdx_none {pat : Str} :
    ∀ {s : Str}, lastIdx pat s = none → ∀ j, occursAt pat s j = false := by
  intro s
  induction s with
  | nil =>
    intro h j
    by_cases hp : List.isPrefixOf pat ([] : Str) = true
    · rw [lastIdx, if_pos hp] at h
      cases h
    · rw [Bool.not_eq_true] at hp
      show List.isPrefixOf pat (List.drop j []) = false
      rw [List.drop_nil]
      exact hp
  | cons c rest ih =>
    intro h j
    rw [lastIdx] at h
    cases hr : lastIdx pat rest with
    | some i' => rw [hr] at h; cases h
    | none =>
      rw [hr] at h
      by_cases hp : List.isPrefixOf pat (c :: rest) = true
      · rw [if_pos hp] at h
        cases h
      · match j with
        | 0 =>
          rw [occursAt_cons_zero, Bool.not_eq_true] at *
          exact hp
        | j + 1 =>
          rw [occursAt_cons_succ]
          exact ih hr j

lemma lastIdx_max {pat : Str} (hp : pat ≠ []) :
    ∀ {s : Str} {i : Nat}, lastIdx pat s = some i →
      ∀ j, occursAt pat s j = true → j ≤ i := by
  intro s
  induction s with
  | nil =>
    intro i h j hj
    exfalso
    have : List.isPrefixOf pat (List.drop j ([] : Str)) = true := hj
    rw [List.drop_nil] at this
    exact hp (List.prefix_nil.mp (List.isPrefixOf_iff_prefix.mp this))
  | cons c rest ih =>
    intro i h j hj
    rw [lastIdx] at h
    cases hr : lastIdx pat rest with
    | some i' =>
      rw [hr] at h
      cases h
      match j with
      | 0 => exact Nat.zero_le _
      | j + 1 =>
        rw [occursAt_cons_succ] at hj
        exact Nat.succ_le_succ (ih hr j hj)
    | none =>
      rw [hr] at h
      by_cases hpre : List.isPrefixOf pat (c :: rest) = true
      · rw [if_pos hpre] at h
        cases h
        match j with
        | 0 => exact Nat.le_refl 0
        | j + 1 =>
          rw [occursAt_cons_succ] at hj
          rw [lastIdx_none hr j] at hj
          cases hj
      · rw [if_neg hpre] at h
        cases h

lemma lastIdx_none_firstIdx {pat : Str} :
    ∀ {s : Str}, lastIdx pat s = none → firstIdx pat s = none := by
  intro s
  induction s with
  | nil =>
    intro h
    rw [lastIdx] at h
    rw [firstIdx]
    split at h
    · cases h
    · rw [if_neg (by assumption)]
  | cons c rest ih =>
    intro h
    rw [lastIdx] at h
    cases hr : lastIdx pat rest with
    | some i' => rw [hr] at h; cases h
    | none =>
      rw [hr] at h
      by_cases hp : List.isPrefixOf pat (c :: rest) = true
      · rw [if_pos hp] at h
        cases h
      · rw [firstIdx, if_neg hp, ih hr]
        rfl

lemma containsSub_lastIdx {pat s : Str} (h : containsSub pat s = true) :
    ∃ i, lastIdx pat s = some i := by
  cases hL : lastIdx pat s with
  | none =>
    rw [containsSub, lastIdx_none_firstIdx hL] at h
    cases h
  | some i => exact ⟨i, rfl⟩

/-! Specifications of whitespace splitting and joining. -/

lemma splitWsAux_nonspace {c : Char} (hc : isPySpace c = false) (s acc : Str) :
    splitWsAux (c :: s) acc = splitWsAux s (c :: acc) := by
  simp only [splitWsAux, hc]
  simp

lemma splitWsAux_space {c : Char} (hc : isPySpace c = true) (s acc : Str) :
    splitWsAux (c :: s) acc =
      if acc.isEmpty then splitWsAux s [] else acc.reverse :: splitWsAux s [] := by
  simp only [splitWsAux, hc]
  simp

lemma splitWsAux_tokens :
    ∀ (s acc : Str), (∀ c ∈ acc, isPySpace c = false) →
      ∀ w ∈ splitWsAux s acc, w ≠ [] ∧ ∀ c ∈ w, isPySpace c = false := by
  intro s
  induction s with
  | nil =>
    intro acc hacc w hw
    simp only [splitWsAux] at hw
    split at hw
    · cases hw
    · rename_i hne
      rw [List.mem_singleton] at hw
      subst hw
      refine ⟨by simpa [List.isEmpty_iff] using hne, ?_⟩
      intro c hc
      exact hacc c (List.mem_reverse.mp hc)
  | cons c rest ih =>
    intro acc hacc w hw
    by_cases hc : isPySpace c = true
    · rw [splitWsAux_space hc] at hw
      split at hw
      · exact ih [] (by simp) w hw
      · rename_i hne
        rcases List.mem_cons.mp hw with rfl | hw
        · refine ⟨by simpa [List.isEmpty_iff] using hne, ?_⟩
          intro d hd
          exact hacc d (List.mem_reverse.mp hd)
        · exact ih [] (by simp) w hw
    · rw [Bool.not_eq_true] at hc
      rw [splitWsAux_nonspace hc] at hw
      refine ih (c :: acc) ?_ w hw
      intro d hd
      rcases List.mem_cons.mp hd with rfl | hd
      · exact hc
      · exact hacc d hd

lemma splitWs_tokens (s : Str) :
    ∀ w ∈ splitWs s, w ≠ [] ∧ ∀ c ∈ w, isPySpace c = false :=
  splitWsAux_tokens s [] (by simp)

lemma splitWsAux_word :
    ∀ (w : Str), (∀ c ∈ w, isPySpace c = false) →
      ∀ (s acc : Str), splitWsAux (w ++ s) acc = splitWsAux s (w.reverse ++ acc) := by
  intro w
  induction w with
  | nil => intro _ s acc; simp
  | cons c w' ih =>
    intro hgood s acc
    have hc : isPySpace c = false := hgood c (by simp)
    have hw' : ∀ d ∈ w', isPySpace d = false := fun d hd => hgood d (by simp [hd])
    rw [List.cons_append, splitWsAux_nonspace hc, ih hw' s (c :: acc)]
    congr 1
    simp

lemma splitWs_joinSep :
    ∀ (ws : List Str), (∀ w ∈ ws, w ≠ [] ∧ ∀ c ∈ w, isPySpace c = false) →
      splitWs (joinSep spc ws) = ws := by
  intro ws
  induction ws with
  | nil => intro _; rfl
  | cons w vs ih =>
    intro hgood
    obtain ⟨hw, hwc⟩ := hgood w (by simp)
    cases vs with
    | nil =>
      show splitWs (joinSep spc [w]) = [w]
      have : joinSep spc [w] = w ++ [] := by simp [joinSep]
      rw [splitWs, this, splitWsAux_word w hwc [] []]
      simp only [splitWsAux, List.append_nil]
      rw [if_neg (by simpa [List.isEmpty_iff] using hw)]
      simp
    | cons v vs' =>
      have hvs : ∀ u ∈ v :: vs', u ≠ [] ∧ ∀ c ∈ u, isPySpace c = false :=
        fun u hu => hgood u (by simp [List.mem_cons.mp hu])
      have hjoin : joinSep spc (w :: v :: vs') = w ++ (' ' :: joinSep spc (v :: vs')) := by
        simp [joinSep, spc, lit]
      rw [splitWs, hjoin, splitWsAux_word w hwc _ []]
      have hsp : isPySpace ' ' = true := by decide
      simp only [splitWsAux, hsp, List.append_nil, if_true]
      rw [if_neg (by simpa [List.isEmpty_iff] using hw)]
      rw [List.reverse_reverse]
      exact congrArg (w :: ·) (ih hvs)

/-- The truncation loop computes, in one equation, the effect of scanning
the marker list in order: the first marker of the list occurring in the
case-folded candidate wins and cuts at its first occurrence. -/
lemma truncLoop_find (l : List Str) :
    ∀ c : Str, truncLoop l c =
      match l.find? (fun m => containsSub m (pyLower c)) with
      | some m => pyStrip (c.take ((firstIdx m (pyLower c)).getD 0))
      | none => c := by
  induction l with
  | nil => intro c; rfl
  | cons m rest ih =>
    intro c
    cases hf : firstIdx m (pyLower c) with
    | some i =>
      have hcs : containsSub m (pyLower c) = true := by simp [containsSub, hf]
      simp [truncLoop, List.find?, hcs, hf]
    | none =>
      have hcs : containsSub m (pyLower c) = false := by simp [containsSub, hf]
      simp only [truncLoop, hf, List.find?, hcs]
      simpa using ih c

/-! Invariants of the places accumulation loop. -/

lemma placesStep_cases (names : List Str) (el : Option Str) :
    placesStep names el = names ∨
    ∃ name, el = some name ∧ name ∉ names ∧ placesStep names el = names ++ [name] ∧
      name ∈ el.toList := by
  rcases el with _ | name
  · exact Or.inl rfl
  · by_cases hcond : (!name.isEmpty && !names.contains name) = true
    · refine Or.inr ⟨name, rfl, ?_, ?_, by simp⟩
      · rcases Bool.and_eq_true_iff.mp hcond with ⟨_, h2⟩
        simpa using h2
      · simp only [placesStep]
        rw [if_pos hcond]
    · refine Or.inl ?_
      simp only [placesStep]
      rw [if_neg hcond]

lemma placesLoop_nodup_sublist (limit : Nat) :
    ∀ (els : List (Option Str)) (names : List Str), names.Nodup →
      (placesLoop limit els names).Nodup ∧
      ∃ t, placesLoop limit els names = names ++ t ∧
        List.Sublist t (els.filterMap id) := by
  intro els
  induction els with
  | nil =>
    intro names h
    exact ⟨h, [], by simp [placesLoop], List.nil_sublist _⟩
  | cons el rest ih =>
    intro names h
    simp only [placesLoop]
    rcases placesStep_cases names el with hstep | ⟨name, rfl, hmem, hstep, _⟩
    · rw [hstep]
      split
      · exact ⟨h, [], by simp, List.nil_sublist _⟩
      · obtain ⟨hnd, t, ht, hs⟩ := ih names h
        refine ⟨hnd, t, ht, ?_⟩
        rcases el with _ | name
        · simpa using hs
        · exact List.Sublist.trans hs (by simp [List.sublist_cons_self])
    · have hnd2 : (names ++ [name]).Nodup := by
        rw [List.nodup_append]
        exact ⟨h, List.nodup_singleton name, by simpa using hmem⟩
      rw [hstep]
      split
      · exact ⟨hnd2, [name], rfl, by simp⟩
      · obtain ⟨hnd, t, ht, hs⟩ := ih (names ++ [name]) hnd2
        refine ⟨hnd, [name] ++ t, by simpa using ht, ?_⟩
        simpa using List.Sublist.cons₂ name hs

lemma placesLoop_length (limit : Nat) :
    ∀ (els : List (Option Str)) (names : List Str), names.length < limit →
      (placesLoop limit els names).length ≤ limit := by
  intro els
  induction els with
  | nil =>
    intro names h
    simpa [placesLoop] using Nat.le_of_lt h
  | cons el rest ih =>
    intro names h
    simp only [placesLoop]
    rcases placesStep_cases names el with hstep | ⟨name, _, _, hstep, _⟩ <;>
      rw [hstep] <;> split
    · exact Nat.le_of_lt h
    · exact ih names h
    · simp only [List.length_append, List.length_singleton]
      omega
    · rename_i hlt
      refine ih _ ?_
      simp only [List.length_append, List.length_singleton] at hlt ⊢
      omega

/-- As long as the accumulator is below the limit, the loop extends it with
exactly the first-occurrence deduplication of the remaining truthy names,
truncated to the room left below the limit. -/
lemma placesLoop_firstOccur (limit : Nat) :
    ∀ (els : List (Option Str)) (names : List Str), names.length < limit →
      placesLoop limit els names =
        names ++ (firstOccur names
          ((els.filterMap id).filter (fun n => !n.isEmpty))).take (limit - names.length) := by
  intro els
  induction els with
  | nil =>
    intro names h
    simp [placesLoop, firstOccur]
  | cons el rest ih =>
    intro names h
    have hnb : ¬(names.length ≥ limit) := by omega
    rcases el with _ | name
    · have hfm : ((none :: rest).filterMap id).filter (fun n => !n.isEmpty) =
          (rest.filterMap id).filter (fun n => !n.isEmpty) := by simp
      simp only [placesLoop, placesStep]
      rw [if_neg hnb, ih names h, hfm]
    · by_cases hemp : name.isEmpty = true
      · have hstep : placesStep names (some name) = names := by
          simp [placesStep, hemp]
        have hfm : ((some name :: rest).filterMap id).filter (fun n => !n.isEmpty) =
            (rest.filterMap id).filter (fun n => !n.isEmpty) := by simp [hemp]
        simp only [placesLoop]
        rw [hstep, if_neg hnb, ih names h, hfm]
      · have hfm : ((some name :: rest).filterMap id).filter (fun n => !n.isEmpty) =
            name :: ((rest.filterMap id).filter (fun n => !n.isEmpty)) := by
          simp [hemp]
        by_cases hmem : names.contains name = true
        · have hmem' : name ∈ names := by simpa using hmem
          have hstep : placesStep names (some name) = names := by
            simp [placesStep, hmem']
          simp only [placesLoop]
          rw [hstep, if_neg hnb, ih names h, hfm, firstOccur, if_pos hmem]
        · have hmem' : name ∉ names := by simpa using hmem
          have hstep : placesStep names (some name) = names ++ [name] := by
            simp [placesStep, hemp, hmem']
          simp only [placesLoop]
          rw [hstep, hfm, firstOccur, if_neg hmem]
          have harith : limit - names.length = (limit - (names.length + 1)) + 1 := by
            omega
          rw [harith, List.take_succ_cons]
          by_cases hbreak : (names ++ [name]).length ≥ limit
          · rw [if_pos hbreak]
            have h0 : limit - (names.length + 1) = 0 := by
              simp only [List.length_append, List.length_singleton] at hbreak
              omega
            rw [h0, List.take_zero]
          · rw [if_neg hbreak]
            have hlt : (names ++ [name]).length < limit := by omega
            rw [ih (names ++ [name]) hlt]
            simp only [List.length_append, List.length_singleton]
            simp

/-! The claims. -/

/-- C1 counterexample: on the input "What's the weather in Paris?" the place
extractor does not yield "Paris" — tokenisation is whitespace-based, so
"What's" is a single token, and that token is not in the stop-word set. -/
theorem claim1_cex :
    extract_place (lit "What's the weather in Paris?") ≠ lit "Paris" := by decide

/-- C1 amended: for the input "What's the weather in Paris?", classification
yields wants_weather = true and wants_places = false, and the place extractor
yields "What's Paris" (only "the", "weather" and "in" are stripped; the token
"What's" is not in the stop-word set), so the reply is a single weather
sentence referencing the geocoder's display name for the query — here, with a
provider entry "Paris, France", a weather sentence referencing "Paris". -/
theorem claim1_scenario_a :
    classify (lit "What's the weather in Paris?") = (true, false) ∧
    extract_place (lit "What's the weather in Paris?") = lit "What's Paris" ∧
    handle_request
        ⟨[⟨48, 2, some (lit "Paris, France")⟩], ⟨some (lit "21.0"), [10, 40]⟩, []⟩
        (lit "What's the weather in Paris?") =
      (lit "In Paris it's currently 21.0°C with a chance of 40% to rain.",
       [UpCall.geo, UpCall.weather]) := by
  refine ⟨by decide, by decide, by decide⟩

/-- C2 counterexample: the input "," contains a non-whitespace character yet
the extractor returns the empty candidate (the truncation stage cuts
everything before the comma), refuting "the final candidate is non-empty for
every input containing at least one non-whitespace character". -/
theorem claim2_cex :
    extract_place (lit ",") = [] ∧
    ¬(∀ c ∈ lit ",", isPySpace c = true) := by decide

/-- C2 amended: for every empty or entirely-whitespace input the extractor
returns the empty candidate; however, some inputs containing non-whitespace
characters (for example ",") also yield an empty candidate, so emptiness of
the input is sufficient but not necessary for an empty result. -/
theorem claim2_whitespace_empty (s : Str) (h : ∀ c ∈ s, isPySpace c = true) :
    extract_place s = [] := by
  have h1 : pyStrip s = [] := by
    have hd : s.dropWhile isPySpace = [] := List.dropWhile_eq_nil_iff.mpr h
    simp [pyStrip, hd]
  have h2 : anchorStage s = [] := by
    simp only [anchorStage, h1]
    decide
  show capStage (stripStage (truncStage (anchorStage s))) = []
  rw [h2]
  decide

/-- Witness for C2: the two-space input is entirely whitespace and the
extractor returns the empty candidate on it. -/
theorem claim2_whitespace_empty_witness : extract_place (lit "  ") = [] :=
  claim2_whitespace_empty (lit "  ") (by decide)

/-- C3: wants_weather holds exactly when the case-folded text contains
"weather" or "temperature"; wants_places holds exactly when it contains one
of the five places keywords or when wants_weather is false (the forced
default); the resulting intent is never both-false. -/
theorem claim3_intent (s : Str) :
    ((classify s).1 = true ↔
      (containsSub (lit "weather") (pyLower s) = true ∨
       containsSub (lit "temperature") (pyLower s) = true)) ∧
    ((classify s).2 = true ↔
      (containsSub (lit "place") (pyLower s) = true ∨
       containsSub (lit "places") (pyLower s) = true ∨
       containsSub (lit "visit") (pyLower s) = true ∨
       containsSub (lit "attraction") (pyLower s) = true ∨
       containsSub (lit "sightseeing") (pyLower s) = true ∨
       (classify s).1 = false)) ∧
    ((classify s).1 = true ∨ (classify s).2 = true) := by
  simp only [classify, wwOf, wpOf, weatherKw, placesKw, List.any_cons, List.any_nil]
  cases h1 : containsSub (lit "temperature") (pyLower s) <;>
    cases h2 : containsSub (lit "weather") (pyLower s) <;>
    cases h3 : containsSub (lit "place") (pyLower s) <;>
    cases h4 : containsSub (lit "places") (pyLower s) <;>
    cases h5 : containsSub (lit "visit") (pyLower s) <;>
    cases h6 : containsSub (lit "attraction") (pyLower s) <;>
    cases h7 : containsSub (lit "sightseeing") (pyLower s) <;>
    simp_all

/-- C9 counterexample: with requested limit 0 and a single named element the
lookup still returns that one name, because the loop's break check runs only
after the append — so "length at most the requested limit, for every limit"
fails at limit 0. -/
theorem claim9_cex :
    get_places [some (lit "A")] 0 = [lit "A"] ∧
    ¬((get_places [some (lit "A")] 0).length ≤ 0) := by decide

/-- C9 amended: for every provider response the lookup returns a list with
no duplicate names that is an order-preserving subsequence of the provider's
names; for every limit of at least 1 it is exactly the first-occurrence
deduplication of the provider's truthy names, truncated to the limit — so it
preserves the order of first occurrence in the provider response — and its
length is at most the limit (at limit 0 one entry can still slip out,
because the break check runs only after the append); the orchestrator's cap
of 5 therefore bounds the composed list by 5. -/
theorem claim9_places (els : List (Option Str)) (limit : Nat) :
    (get_places els limit).Nodup ∧
    List.Sublist (get_places els limit) (els.filterMap id) ∧
    (1 ≤ limit →
      get_places els limit =
        (dedupFirst ((els.filterMap id).filter (fun n => !n.isEmpty))).take limit) ∧
    (1 ≤ limit → (get_places els limit).length ≤ limit) ∧
    (get_places els 5).length ≤ 5 := by
  obtain ⟨hnd, t, ht, hs⟩ := placesLoop_nodup_sublist limit els [] List.nodup_nil
  refine ⟨hnd, ?_, ?_, ?_, ?_⟩
  · show List.Sublist (placesLoop limit els []) _
    rw [ht]
    simpa using hs
  · intro h1
    have heq := placesLoop_firstOccur limit els [] (by simpa using h1)
    simpa [get_places, dedupFirst] using heq
  · intro h1
    refine placesLoop_length limit els [] ?_
    simpa using h1
  · refine placesLoop_length 5 els [] ?_
    simp

/-- C4: when the case-folded trimmed text contains " to ", the extractor's
anchor stage starts from the trimmed substring after the rightmost
occurrence — the anchor index is an occurrence of " to " and no occurrence
lies further right; when it does not, the anchor stage keeps the whole
trimmed text.  The extractor is the composition of its stages starting at
the anchor stage. -/
theorem claim4_rightmost_anchor (s : Str) :
    (containsSub toPat (pyLower (pyStrip s)) = true →
      ∃ i, lastIdx toPat (pyLower (pyStrip s)) = some i ∧
        anchorStage s = pyStrip ((pyStrip s).drop (i + 4)) ∧
        occursAt toPat (pyLower (pyStrip s)) i = true ∧
        ∀ j, occursAt toPat (pyLower (pyStrip s)) j = true → j ≤ i) ∧
    (containsSub toPat (pyLower (pyStrip s)) = false → anchorStage s = pyStrip s) ∧
    extract_place s = capStage (stripStage (truncStage (anchorStage s))) := by
  refine ⟨?_, ?_, rfl⟩
  · intro hc
    obtain ⟨i, hi⟩ := containsSub_lastIdx hc
    refine ⟨i, hi, ?_, lastIdx_occurs hi, lastIdx_max (by decide) hi⟩
    simp [anchorStage, hc, hi]
  · intro hc
    simp [anchorStage, hc]

/-- C5: the truncation stage equals a scan of the markers in their fixed
priority order — `List.find?` returns the first marker of the list that
occurs in the case-folded candidate, the candidate is cut before that
marker's first occurrence (then stripped, as the code does), and no later
marker is applied; moreover `firstIdx` really is the first occurrence:
it is an occurrence and no occurrence lies before it. -/
theorem claim5_marker_priority (c : Str) :
    truncStage c =
      (match seps.find? (fun m => containsSub m (pyLower c)) with
       | some m => pyStrip (c.take ((firstIdx m (pyLower c)).getD 0))
       | none => c) ∧
    ∀ m i, firstIdx m (pyLower c) = some i →
      occursAt m (pyLower c) i = true ∧
      ∀ j, occursAt m (pyLower c) j = true → i ≤ j := by
  refine ⟨truncLoop_find seps c, ?_⟩
  intro m i h
  exact ⟨firstIdx_occurs h, firstIdx_min h⟩

/-- C6: if stop-word stripping removes every token the candidate falls back
to the last two tokens of the pre-stripping token list; afterwards a
candidate of more than 3 tokens is cut to its last 2 tokens; consequently
every candidate the extractor returns has at most 3 tokens. -/
theorem claim6_fallback_and_cap :
    (∀ c : Str,
      (splitWs c).filter (fun w => !(stop_words.contains (pyLower w))) = [] →
        stripStage c = joinSep spc ((splitWs c).drop ((splitWs c).length - 2))) ∧
    (∀ c : Str, (splitWs c).length > 3 →
        capStage c = joinSep spc ((splitWs c).drop ((splitWs c).length - 2))) ∧
    (∀ s : Str, (splitWs (extract_place s)).length ≤ 3) := by
  refine ⟨?_, ?_, ?_⟩
  · intro c h
    simp only [stripStage]
    rw [h]
    rfl
  · intro c h
    simp only [capStage]
    rw [if_pos h]
  · intro s
    show (splitWs (capStage (stripStage (truncStage (anchorStage s))))).length ≤ 3
    set c := stripStage (truncStage (anchorStage s)) with hc
    by_cases h : (splitWs c).length > 3
    · simp only [capStage]
      rw [if_pos h]
      have hgood : ∀ w ∈ (splitWs c).drop ((splitWs c).length - 2),
          w ≠ [] ∧ ∀ d ∈ w, isPySpace d = false :=
        fun w hw => splitWs_tokens c w ((List.drop_sublist _ _).mem hw)
      rw [splitWs_joinSep _ hgood, List.length_drop]
      omega
    · simp only [capStage]
      rw [if_neg h]
      omega

/-- C7: a request whose candidate geocodes to not-found gets exactly the
fixed "I don't know this place exist." reply with the geocoding call as the
only upstream call; a request with an empty extracted candidate gets the
fixed prompt reply with no upstream call at all. -/
theorem claim7_notfound_and_empty (env : Env) (s : Str) :
    (extract_place s = [] →
      handle_request env s =
        (lit "Please tell me which place you want to go.", [])) ∧
    (extract_place s ≠ [] →
      geocode (extract_place s) env.geoResults = none →
      handle_request env s =
        (lit "I don't know this place exist.", [UpCall.geo])) := by
  constructor
  · intro h
    simp [handle_request, h]
  · intro h hg
    have hpe : (extract_place s).isEmpty = false := by
      cases he : extract_place s with
      | nil => exact absurd he h
      | cons a l => rfl
    simp [handle_request, hpe, hg]

/-- Scenario C of the specification evaluated concretely: "places to visit
in Atlantis" with an empty geocoder result list yields exactly the fixed
not-found reply, and geocoding is the only upstream call made. -/
theorem scenarioC_eval :
    handle_request ⟨[], ⟨none, []⟩, []⟩ (lit "places to visit in Atlantis") =
      (lit "I don't know this place exist.", [UpCall.geo]) := by decide

/-- The empty-candidate path evaluated concretely: a comma-only message
leaves no candidate and yields the fixed prompt reply with no upstream
call. -/
theorem emptyCandidate_eval :
    handle_request ⟨[⟨0, 0, none⟩], ⟨none, []⟩, []⟩ (lit ",") =
      (lit "Please tell me which place you want to go.", []) := by decide

/-- C8: in the weather-only branch the reply is composed from the available
weather fields: both fields present gives the full sentence, temperature
alone gives the temperature-only sentence (whose text never mentions rain),
and an absent temperature gives the apology naming the resolved display
name. -/
theorem claim8_weather_only (env : Env) (s : Str) (la lo : Int) (dn : Str)
    (hww : wwOf s = true) (hwp : wpOf s = false)
    (hne : extract_place s ≠ [])
    (hg : geocode (extract_place s) env.geoResults = some (la, lo, dn)) :
    (∀ t r, get_weather env.weatherResp = (some t, some r) →
      (handle_request env s).1 =
        lit "In " ++ dn ++ lit " it's currently " ++ t ++
          lit "°C with a chance of " ++ natToStr r ++ lit "% to rain.") ∧
    (∀ t, get_weather env.weatherResp = (some t, none) →
      (handle_request env s).1 =
        lit "In " ++ dn ++ lit " it's currently " ++ t ++ lit "°C.") ∧
    (get_weather env.weatherResp = (none, none) →
      (handle_request env s).1 =
        lit "Sorry, I couldn't get the weather for " ++ dn ++ lit ".") := by
  have hpe : (extract_place s).isEmpty = false := by
    cases he : extract_place s with
    | nil => exact absurd he hne
    | cons a l => rfl
  refine ⟨?_, ?_, ?_⟩
  · intro t r hw
    simp [handle_request, hpe, hg, hww, hwp, hw]
  · intro t hw
    simp [handle_request, hpe, hg, hww, hwp, hw]
  · intro hw
    simp [handle_request, hpe, hg, hww, hwp, hw]

/-- Witness for C8: the query "weather Berlin" classifies weather-only, the
extractor yields "Berlin", and with a provider temperature of 18.0 and peak
precipitation 20 the reply is the full weather sentence for the resolved
name "Berlin". -/
theorem claim8_weather_only_witness :
    (handle_request
        ⟨[⟨1, 2, some (lit "Berlin, Germany")⟩], ⟨some (lit "18.0"), [5, 20]⟩, []⟩
        (lit "weather Berlin")).1 =
      lit "In " ++ lit "Berlin" ++ lit " it's currently " ++ lit "18.0" ++
        lit "°C with a chance of " ++ natToStr 20 ++ lit "% to rain." :=
  (claim8_weather_only
      ⟨[⟨1, 2, some (lit "Berlin, Germany")⟩], ⟨some (lit "18.0"), [5, 20]⟩, []⟩
      (lit "weather Berlin") 1 2 (lit "Berlin")
      (by decide) (by decide) (by decide) (by decide)).1
    (lit "18.0") 20 (by decide)

/-- C10: in the combined branch (wants_places true, wants_weather either
way) the reply is the space-join of: a weather fragment present exactly when
wants_weather holds, rendered from both fields unconditionally (an absent
field renders as "None"); then either the prefixed newline-joined place
list — the prefix depending on whether the weather fragment was appended —
or the places apology when the lookup returned nothing.  The upstream calls
are geocoding, then weather exactly when wants_weather, then places. -/
theorem claim10_combined (env : Env) (s : Str) (la lo : Int) (dn : Str)
    (hwp : wpOf s = true)
    (hne : extract_place s ≠ [])
    (hg : geocode (extract_place s) env.geoResults = some (la, lo, dn)) :
    handle_request env s =
      (joinSep spc
        ((if wwOf s then
            [lit "In " ++ dn ++ lit " it's currently " ++
              showOptS (get_weather env.weatherResp).1 ++
              lit "°C with a chance of " ++
              showOptN (get_weather env.weatherResp).2 ++ lit "% to rain."]
          else []) ++
         [if (get_places env.placesElems 5).isEmpty then
            lit "Sorry, I couldn't find tourist places near " ++ dn ++ lit "."
          else
            (if wwOf s then lit "And these are the places you can go:"
             else lit "In " ++ dn ++ lit " these are the places you can go,") ++
            nlc :: joinSep [nlc] (get_places env.placesElems 5)]),
       UpCall.geo :: ((if wwOf s then [UpCall.weather] else []) ++ [UpCall.places])) := by
  have hpe : (extract_place s).isEmpty = false := by
    cases he : extract_place s with
    | nil => exact absurd he hne
    | cons a l => rfl
  cases hww : wwOf s <;>
    cases hpl : (get_places env.placesElems 5).isEmpty <;>
    simp [handle_request, hpe, hg, hwp, hww, hpl]

/-- Witness for C10: the query "places to visit in Rome" classifies as
places-only, the extractor yields "Rome", and with a provider response
naming the Colosseum twice and the Forum the reply is the prefixed,
deduplicated, newline-joined list. -/
theorem claim10_combined_witness :
    handle_request
        ⟨[⟨3, 4, some (lit "Rome, Italy")⟩], ⟨none, []⟩,
          [some (lit "Colosseum"), none, some (lit "Colosseum"), some (lit "Forum")]⟩
        (lit "places to visit in Rome") =
      (joinSep spc
        ((if wwOf (lit "places to visit in Rome") then
            [lit "In " ++ lit "Rome" ++ lit " it's currently " ++
              showOptS (get_weather ⟨none, []⟩).1 ++
              lit "°C with a chance of " ++
              showOptN (get_weather ⟨none, []⟩).2 ++ lit "% to rain."]
          else []) ++
         [if (get_places [some (lit "Colosseum"), none, some (lit "Colosseum"),
              some (lit "Forum")] 5).isEmpty then
            lit "Sorry, I couldn't find tourist places near " ++ lit "Rome" ++ lit "."
          else
            (if wwOf (lit "places to visit in Rome") then
              lit "And these are the places you can go:"
             else lit "In " ++ lit "Rome" ++ lit " these are the places you can go,") ++
            nlc :: joinSep [nlc]
              (get_places [some (lit "Colosseum"), none, some (lit "Colosseum"),
                some (lit "Forum")] 5)]),
       UpCall.geo :: ((if wwOf (lit "places to visit in Rome") then [UpCall.weather]
          else []) ++ [UpCall.places])) :=
  claim10_combined
    ⟨[⟨3, 4, some (lit "Rome, Italy")⟩], ⟨none, []⟩,
      [some (lit "Colosseum"), none, some (lit "Colosseum"), some (lit "Forum")]⟩
    (lit "places to visit in Rome") 3 4 (lit "Rome")
    (by decide) (by decide) (by decide)

end Tourist
